import Mathlib

set_option autoImplicit false

/-!
Verification of the LLMDistribution caching gateway (Go) against its
natural-language specification.

The development shallowly embeds the content-addressed storage layer
(`pkg/filestorage/storage.go`, the `Distribution` facade) and the caching
proxy (`pkg/proxy/hf_proxy.go`) over an explicit filesystem model.

Filesystem model: a filesystem is an association list from paths to nodes.
Paths are modelled as lists of cleaned segments (the Go code only ever
builds paths with `filepath.Join`, which cleans them; we model all paths as
absolute, so `filepath.Abs` is the identity on them).  A node is a regular
file (with its byte content as a `String`), a directory, or a symbolic
link carrying its target path.  `os.Stat` follows symbolic links,
`os.Lstat`/`os.Readlink`/`os.ReadDir` do not; both behaviours are modelled.
-/

namespace LLMDistribution

/-- A filesystem path, as a list of cleaned segments. -/
abbrev Path := List String

/-- A filesystem node: a regular file with its content, a directory, or a
symbolic link with its target path. -/
inductive Node where
  | file (content : String)
  | dir
  | symlink (target : Path)
deriving DecidableEq, Repr

/-- Whether a node is a directory (the `DirEntry.IsDir` bit, which comes
from `Lstat` and is false for symbolic links). -/
def Node.isDir : Node → Bool
  | .dir => true
  | _ => false

/-- Size reported for a node by `FileInfo.Size`.  For a regular file this
is its content length.  Directory sizes are platform-dependent in reality;
the code paths proved about never depend on them, so they are modelled
as 0. -/
def nodeSize : Node → Nat
  | .file c => c.length
  | _ => 0

/-- A filesystem: an association list from paths to nodes, first match
wins. -/
abbrev FS := List (Path × Node)

/-- Look a path up in the filesystem, first match wins (this is
`os.Lstat`: symbolic links are not followed). -/
def lookupFS : FS → Path → Option Node
  | [], _ => none
  | e :: fs, p => if e.1 = p then some e.2 else lookupFS fs p

/-- Write a node at a path, replacing any existing node there. -/
def insertFS (fs : FS) (p : Path) (n : Node) : FS :=
  (p, n) :: fs.filter (fun e => e.1 ≠ p)

/-- Remove the node at a path (`os.Remove`). -/
def removeFS (fs : FS) (p : Path) : FS :=
  fs.filter (fun e => e.1 ≠ p)

/-- The non-empty prefixes of a path, shortest first. -/
def pathPrefixes (p : Path) : List Path :=
  (List.range p.length).map (fun k => p.take (k + 1))

/-- Model of `os.MkdirAll`: create a directory node at every prefix of the
path that does not exist yet.  The callers in the source all discard the
error of `os.MkdirAll`, so failure modes (a prefix being a regular file)
are not modelled. -/
def mkdirAll (fs : FS) (p : Path) : FS :=
  (pathPrefixes p).foldl
    (fun f q => if lookupFS f q = none then insertFS f q .dir else f) fs

/-- Follow symbolic links starting at a path, with fuel (a chain longer
than the fuel is treated like the ELOOP error of the real system call).
Returns the node the path ultimately denotes. -/
def resolveN : Nat → FS → Path → Option Node
  | 0, _, _ => none
  | k + 1, fs, p =>
    match lookupFS fs p with
    | some (.symlink t) => resolveN k fs t
    | other => other

/-- Model of `os.Stat`: look the path up, following symbolic links.  A
dangling link resolves to `none` (an error), exactly as `os.Stat` fails
with ENOENT on a dangling symbolic link. -/
def statFS (fs : FS) (p : Path) : Option Node :=
  resolveN (fs.length + 1) fs p

/-- Model of `os.ReadFile`: stat the path (following links) and return the
content of the regular file found there; reading a directory fails. -/
def readFileFS (fs : FS) (p : Path) : Option String :=
  match statFS fs p with
  | some (.file c) => some c
  | _ => none

/-- Follow symbolic links at a path itself, returning the final path that
an `os.Create` of the given path would actually write to. -/
def finalPath : Nat → FS → Path → Option Path
  | 0, _, _ => none
  | k + 1, fs, p =>
    match lookupFS fs p with
    | some (.symlink t) => finalPath k fs t
    | _ => some p

/-- Model of `os.Create`: truncate or create a regular (empty) file at the
path, following a symbolic link already present there.  Fails when the
path (after following links) is an existing directory or when its parent
directory does not exist.  On success returns the updated filesystem and
the path actually written (the open file handle). -/
def createFile (fs : FS) (p : Path) : Option (FS × Path) :=
  match finalPath (fs.length + 1) fs p with
  | none => none
  | some q =>
    if q = [] then none
    else if lookupFS fs q = some .dir then none
    else if lookupFS fs q.dropLast = some .dir then
      some (insertFS fs q (.file ""), q)
    else none

/-- Model of writing a whole byte stream through an open handle into the
file it was created at. -/
def writeAll (fs : FS) (p : Path) (body : String) : FS :=
  insertFS fs p (.file body)

/-- Direct children of a directory: the entries whose path extends the
directory path by exactly one segment, with that trailing segment as the
entry name. -/
def childrenOf (fs : FS) (dir : Path) : List (String × Node) :=
  fs.filterMap (fun e =>
    if e.1.take dir.length = dir ∧ e.1.length = dir.length + 1 then
      some ((e.1.drop dir.length).headD "", e.2)
    else none)

/-- Lexicographic (byte-wise) comparison of character lists, as Go compares
file names. -/
def charListLt : List Char → List Char → Bool
  | [], [] => false
  | [], _ :: _ => true
  | _ :: _, [] => false
  | a :: as, b :: bs => if a < b then true else if b < a then false else charListLt as bs

/-- Name order on directory entries. -/
def entryLt (a b : String × Node) : Bool :=
  charListLt a.1.data b.1.data

/-- Model of `os.ReadDir` on a directory node: the direct children, sorted
by file name (as `os.ReadDir` guarantees). -/
def readDir (fs : FS) (dir : Path) : List (String × Node) :=
  List.insertionSort (fun a b => entryLt a b) (childrenOf fs dir)

/-- Model of `os.ReadDir` as a fallible operation: fails when the path is
not a directory node. -/
def readDirE (fs : FS) (p : Path) : Except String (List (String × Node)) :=
  match lookupFS fs p with
  | some .dir => .ok (readDir fs p)
  | _ => .error "failed to read directory"

/-- Join one more (possibly empty) name onto a directory path, as
`filepath.Join` does: joining the empty string leaves the path unchanged
(Join cleans the result, dropping empty components). -/
def joinFile (dir : Path) (name : String) : Path :=
  if name = "" then dir else dir ++ [name]

/-- Model of `strings.Split(s, "/")`. -/
def splitSlash (s : String) : List String :=
  (s.data.splitOn '/').map (fun l => String.mk l)

/-- Model of `filepath.Join(base, rel)` for a relative string that may
itself contain slashes: split at slashes and drop the empty components
(as Join's cleaning does). -/
def goJoinRel (base : Path) (rel : String) : Path :=
  base ++ (splitSlash rel).filter (fun t => t ≠ "")

/-!
## Path codec: `pkg/utils/util.go`, `ConvertModelIDToHFPath`

The Go source is
`return "models--" + strings.ReplaceAll(modelID, "/", "--")`; replacing
a single-character pattern is embedded as a character-by-character
rewrite.
-/

/-- Replace each slash character by two dash characters
(`strings.ReplaceAll(modelID, "/", "--")`). -/
def replaceSlash : List Char → List Char
  | [] => []
  | c :: cs => if c = '/' then '-' :: '-' :: replaceSlash cs else c :: replaceSlash cs

/-- Model of `utils.ConvertModelIDToHFPath`: prepend the fixed prefix
`models--` and replace every slash with a double dash. -/
def ConvertModelIDToHFPath (modelID : String) : String :=
  String.mk ("models--".data ++ replaceSlash modelID.data)

/-!
## Storage layer: `pkg/filestorage/storage.go`

All operations below take the `hub` path, which is the `Storage.baseDir`
field (the configured base directory joined with `hub`, see `NewStorage`).
-/

/-- Model of `Storage.ListFiles`: stat the encoded model directory (not
found when absent), read it, and return the names of the non-directory
entries. -/
def ListFiles (fs : FS) (hub : Path) (modelID : String) : Except String (List String) :=
  let modelDir := hub ++ [ConvertModelIDToHFPath modelID]
  if (statFS fs modelDir).isNone then .error ("model not found: " ++ modelID)
  else
    match readDirE fs modelDir with
    | .error e => .error e
    | .ok entries => .ok ((entries.filter (fun e => !e.2.isDir)).map (fun e => e.1))

/-- Model of `Storage.getRepoSha`: stat the ref file `refs/<version>` under
the encoded model directory, then read it and return its content. -/
def getRepoSha (fs : FS) (hub : Path) (modelID version : String) : Except String String :=
  let versionFilePath := joinFile (hub ++ [ConvertModelIDToHFPath modelID, "refs"]) version
  if (statFS fs versionFilePath).isNone then .error "version file not found"
  else
    match readFileFS fs versionFilePath with
    | some c => .ok c
    | none => .error "failed to read version file"

/-- Model of `Distribution.RepoSha`: the ref-mapped content-set id when
resolution succeeds, the raw token otherwise. -/
def RepoSha (fs : FS) (hub : Path) (modelID version : String) : String :=
  match getRepoSha fs hub modelID version with
  | .error _ => version
  | .ok sha => sha

/-- The path `snapshots/<sha>/<filename>` under the encoded model
directory, as built identically by `FileExists`, `GetFile` and
`FileEtag`. -/
def snapshotEntryPath (hub : Path) (modelID sha filename : String) : Path :=
  joinFile (joinFile (hub ++ [ConvertModelIDToHFPath modelID, "snapshots"]) sha) filename

/-- Model of `Storage.FileExists`: `os.Stat` of
`snapshots/<sha>/<filename>` under the encoded model directory; returns
the stat result and whether it succeeded. -/
def FileExists (fs : FS) (hub : Path) (modelID sha filename : String) : Option Node × Bool :=
  let filePath := snapshotEntryPath hub modelID sha filename
  (statFS fs filePath, (statFS fs filePath).isSome)

/-- The trailing path segment of a link target, as obtained in the
source by `filepath.Split` (after `filepath.Abs`, which is the identity
on the cleaned absolute paths of this model); the empty string for an
empty target. -/
def splitLastSegment (t : Path) : String :=
  t.getLastD ""

/-- Model of `Storage.FileEtag`: `os.Readlink` of the snapshot entry, then
the trailing path segment of the target.  Returns the empty string when
the entry is not a symbolic link. -/
def FileEtag (fs : FS) (hub : Path) (modelID sha filename : String) : String :=
  let filePath := snapshotEntryPath hub modelID sha filename
  match lookupFS fs filePath with
  | some (.symlink target) => splitLastSegment target
  | _ => ""

/-- Model of `Distribution.GetStorageInfo`: stat the directory obtained by
joining the raw (unencoded) model id onto the base directory, then sum the
stat sizes of the `ListFiles` names joined onto that same raw directory,
skipping names whose stat fails. -/
def GetStorageInfo (fs : FS) (hub : Path) (modelID : String) : Except String Nat :=
  let modelDir := goJoinRel hub modelID
  if (statFS fs modelDir).isNone then .error ("model not found: " ++ modelID)
  else
    match ListFiles fs hub modelID with
    | .error e => .error e
    | .ok files =>
      .ok (files.foldl
        (fun acc f =>
          match statFS fs (joinFile modelDir f) with
          | some nd => acc + nodeSize nd
          | none => acc) 0)

/-- The model index document synthesized or loaded by `RepoInfo`.  The
wall-clock timestamp fields (`lastModified`, `createdAt`) and the fields
the source never fills are not modelled. -/
structure ModelDoc where
  id : String
  modelId : String
  author : String
  sha : String
  usedStorage : Nat
  siblings : List String
deriving DecidableEq, Repr

/-- One non-directory entry of the `buildModelIndex` walk: append the
entry name to the sibling list; for a plain file add its own size, for a
symbolic link re-read the link at the walk root joined with the entry
name (exactly the path the source passes to `os.Readlink`), take the
trailing segment of the target as the etag, and add the size of
`blobs/<etag>`. -/
def visitEntry (fs : FS) (hub : Path) (modePath : String) (sd : Path)
    (name : String) (nd : Node) (acc : List String × Nat) :
    Except String (List String × Nat) :=
  match nd with
  | .symlink _ =>
    match lookupFS fs (sd ++ [name]) with
    | some (.symlink target) =>
      let etag := splitLastSegment target
      match statFS fs (joinFile (hub ++ [modePath, "blobs"]) etag) with
      | some blob => .ok (acc.1 ++ [name], acc.2 + nodeSize blob)
      | none => .error "failed to stat blob"
    | _ => .error "failed to read link"
  | nd => .ok (acc.1 ++ [name], acc.2 + nodeSize nd)

/-- The recursive directory walk of `filepath.WalkDir` as used by
`buildModelIndex`: visit the sorted entries of the directory, recursing
into subdirectories, and fold the visitor over the non-directory
entries. -/
def walkRec : Nat → FS → Path → String → Path → Path → (List String × Nat) →
    Except String (List String × Nat)
  | 0, _, _, _, _, _, _ => .error "walk depth exceeded"
  | fuel + 1, fs, hub, modePath, sd, dir, acc =>
    (readDir fs dir).foldlM
      (fun a e =>
        match e.2 with
        | .dir => walkRec fuel fs hub modePath sd (dir ++ [e.1]) a
        | nd => visitEntry fs hub modePath sd e.1 nd a)
      acc

/-- Model of `Storage.buildModelIndex`: author is the substring of the
model id before the first slash, the sha comes from the ref file, and
siblings plus total size come from walking `snapshots/<sha>`.
`filepath.WalkDir` starts with an `os.Lstat` of the root: a missing root
is an error, a directory root is walked, and a non-directory root is
visited once as a single entry. -/
def buildModelIndex (fs : FS) (hub : Path) (modelID version : String) :
    Except String ModelDoc :=
  let author := (splitSlash modelID).headD ""
  let modePath := ConvertModelIDToHFPath modelID
  match getRepoSha fs hub modelID version with
  | .error e => .error e
  | .ok sha =>
    let sd := joinFile (hub ++ [modePath, "snapshots"]) sha
    match lookupFS fs sd with
    | none => .error "failed to walk model directory"
    | some .dir =>
      match walkRec (fs.length + 1) fs hub modePath sd sd ([], 0) with
      | .error e => .error e
      | .ok (names, total) =>
        .ok ⟨modelID, modelID, author, sha, total, names⟩
    | some nd =>
      match visitEntry fs hub modePath sd (sd.getLastD "") nd ([], 0) with
      | .error e => .error e
      | .ok (names, total) =>
        .ok ⟨modelID, modelID, author, sha, total, names⟩

/-- Model of `Storage.RepoInfo`: when the `.modeindex` stat fails the
index is rebuilt from the snapshot directory; otherwise the file is read
and parsed.  JSON decoding is kept abstract as a `parse` parameter (the
claims proved below only concern the rebuild branch). -/
def RepoInfo (parse : String → Option ModelDoc) (fs : FS) (hub : Path)
    (modelID version : String) : Except String ModelDoc :=
  let modelIndexPath := hub ++ [ConvertModelIDToHFPath modelID, ".modeindex"]
  match statFS fs modelIndexPath with
  | none => buildModelIndex fs hub modelID version
  | some _ =>
    match readFileFS fs modelIndexPath with
    | none => .error "failed to read modelindex file"
    | some data =>
      match parse data with
      | none => .error "failed to unmarshal modelindex file"
      | some m => .ok m

/-!
## Caching proxy: `pkg/proxy/hf_proxy.go`

The proxy operations take the configured base directory `base`; the hub
directory they write under is `base ++ ["hub"]`, which is the same
directory the storage layer receives as its `baseDir`.
-/

/-- Model of `strings.ReplaceAll(etag, "\x22", "")`: remove every double
quote character. -/
def removeQuotes (s : String) : String :=
  String.mk (s.data.filter (fun c => c ≠ '"'))

/-- Model of `getCommitAndEtag`: the commit is the `x-repo-commit` header;
the etag is the `x-linked-etag` header, falling back to `etag` when that
is empty, with all double quotes removed. -/
def getCommitAndEtag (xRepoCommit xLinkedEtag etagHeader : String) : String × String :=
  let etag := if xLinkedEtag.length = 0 then etagHeader else xLinkedEtag
  (xRepoCommit, removeQuotes etag)

/-- Model of the stat-then-MkdirAll pattern
`if _, err := os.Stat(dir); os.IsNotExist(err) \x7b os.MkdirAll(dir, 0755) \x7d`. -/
def ensureDir (fs : FS) (p : Path) : FS :=
  if (statFS fs p).isNone then mkdirAll fs p else fs

/-- Model of `Proxy.path`: the encoded model directory under
`<base>/hub`, created if absent. -/
def proxyPath (fs : FS) (base : Path) (modelID : String) : FS × Path :=
  let dir := base ++ ["hub", ConvertModelIDToHFPath modelID]
  (ensureDir fs dir, dir)

/-- Modelled from the spec: `symlinkOrRename` is called by
`CreateModelFile` but its definition is not under src/.  Per the data
model and the Snapshot Index contract it "creates the indirection entry
pointing at the blob, replacing any existing entry at that path", the
entry being a filesystem-level symbolic link whose target is the blob
path. -/
def symlinkOrRename (fs : FS) (target dest : Path) : FS :=
  insertFS fs dest (.symlink target)

/-- Model of `Proxy.CreateModelFile`: derive commit and etag from the
response headers, ensure the blob directory, `os.Create` the blob file at
`blobs/<etag>`, ensure the snapshot directory, and create the indirection
entry `snapshots/<commit>/<filename>` pointing at the blob path.  The
source ignores the error of `os.Create` until its final `return`, so the
indirection entry is created even when blob creation failed; the returned
option is the open blob handle (`none` when creation failed). -/
def CreateModelFile (fs : FS) (base : Path) (modelID filename : String)
    (xRepoCommit xLinkedEtag etagHeader : String) : FS × Option Path :=
  let ce := getCommitAndEtag xRepoCommit xLinkedEtag etagHeader
  let fp := proxyPath fs base modelID
  let blobDir := fp.2 ++ ["blobs"]
  let fs1 := ensureDir fp.1 blobDir
  let blobPath := joinFile blobDir ce.2
  let createRes := createFile fs1 blobPath
  let fs2 := (createRes.map (fun r => r.1)).getD fs1
  let destDir := joinFile (fp.2 ++ ["snapshots"]) ce.1
  let fs3 := ensureDir fs2 destDir
  let destfile := joinFile destDir filename
  let fs4 := symlinkOrRename fs3 blobPath destfile
  (fs4, createRes.map (fun r => r.2))

/-- Model of `Proxy.CreateModelIndexFile`: remove any existing
`.modeindex` for the model, `os.Create` a fresh one (the returned
handle), ensure the `refs` directory, and `os.Create` the ref file
`refs/<version>`.  The source never writes anything into the ref file and
discards the result of its `os.Create`, so the ref file is left empty. -/
def CreateModelIndexFile (fs : FS) (base : Path) (modelID version : String) :
    FS × Option Path :=
  let fp := proxyPath fs base modelID
  let modelIndexPath := fp.2 ++ [".modeindex"]
  let fs1 := if (statFS fp.1 modelIndexPath).isSome then removeFS fp.1 modelIndexPath else fp.1
  let createRes := createFile fs1 modelIndexPath
  let fs2 := (createRes.map (fun r => r.1)).getD fs1
  let refsDir := fp.2 ++ ["refs"]
  let fs3 := ensureDir fs2 refsDir
  let versionFilePath := joinFile refsDir version
  let fs4 := ((createFile fs3 versionFilePath).map (fun r => r.1)).getD fs3
  (fs4, createRes.map (fun r => r.2))

/-- Model of the index branch of `Proxy.WithModifyResponseToCache` (the
path carries no sha): `CreateModelIndexFile`, then tee the whole response
body into the returned handle.  The `x-repo-commit` header value is in
scope at this point in the source (`getCommitAndEtag` reads it on the
file branch) but is never consulted on the index branch, hence the unused
parameter. -/
def captureIndexResponse (fs : FS) (base : Path) (modelID version : String)
    (body : String) (_xRepoCommit : String) : FS × Bool :=
  match CreateModelIndexFile fs base modelID version with
  | (fs1, some handle) => (writeAll fs1 handle body, true)
  | (fs1, none) => (fs1, false)

/-!
## The intermediate stream buffer: `streamWriter.Write`

`streamWriter.Write` copies the input slice into the pooled buffer in
chunks of at most the buffer length and forwards each chunk to the
underlying writer.  The underlying writer is an `os.File`, whose `Write`
never short-writes on success, so the model below records the sequence of
chunks handed to it; the byte count reported to the caller is the total
length of those chunks.
-/

/-- The chunks `streamWriter.Write` forwards to the underlying writer for
an input slice `p` and an internal buffer of length `bufLen`: while input
remains, `copy` moves `min bufLen p.length` bytes into the buffer (a copy
of zero bytes breaks the loop) and the filled part of the buffer is
written out. -/
def streamWrite {α : Type} (bufLen : Nat) : List α → List (List α)
  | [] => []
  | x :: xs =>
    if bufLen = 0 then []
    else
      (x :: xs).take (min bufLen (x :: xs).length) ::
        streamWrite bufLen ((x :: xs).drop (min bufLen (x :: xs).length))
termination_by p => p.length
decreasing_by
  rename_i hb
  have h1 : 1 ≤ min bufLen (x :: xs).length :=
    le_min (Nat.one_le_iff_ne_zero.mpr hb) (by simp)
  simp only [List.length_drop, List.length_cons] at *
  omega

/-- The byte count `streamWriter.Write` reports on success. -/
def streamWriteCount {α : Type} (bufLen : Nat) (p : List α) : Nat :=
  ((streamWrite bufLen p).map List.length).sum

/-!
## Basic lemmas about the filesystem model
-/

theorem lookupFS_insertFS (fs : FS) (p q : Path) (n : Node) :
    lookupFS (insertFS fs p n) q = if q = p then some n else lookupFS fs q := by
  unfold insertFS
  simp only [lookupFS]
  by_cases h : q = p
  · subst h; simp
  · rw [if_neg (fun hpq : p = q => h hpq.symm), if_neg h]
    induction fs with
    | nil => simp [lookupFS]
    | cons e fs ih =>
      by_cases he : e.1 = p
      · have hne : e.1 ≠ q := fun hq => h (hq.symm.trans he)
        rw [List.filter_cons_of_neg (by simp [he])]
        rw [show lookupFS (e :: fs) q = lookupFS fs q from by simp [lookupFS, hne]]
        exact ih
      · rw [List.filter_cons_of_pos (by simp [he])]
        by_cases heq : e.1 = q
        · simp [lookupFS, heq]
        · simp only [lookupFS, if_neg heq]
          exact ih

theorem lookupFS_eq_of_mem_nodup {fs : FS} {p : Path} {n : Node}
    (hnd : (fs.map Prod.fst).Nodup) (h : (p, n) ∈ fs) : lookupFS fs p = some n := by
  induction fs with
  | nil => cases h
  | cons e fs ih =>
    rcases List.mem_cons.mp h with he | he
    · subst he; simp [lookupFS]
    · have hne : e.1 ≠ p := by
        intro hep
        have : p ∈ fs.map Prod.fst := List.mem_map.mpr ⟨(p, n), he, rfl⟩
        exact (List.nodup_cons.mp hnd).1 (hep ▸ this)
      simp [lookupFS, hne, ih (List.nodup_cons.mp hnd).2 he]

theorem lookupFS_ne_nil {fs : FS} {p : Path} {n : Node}
    (h : lookupFS fs p = some n) : fs ≠ [] := by
  intro he; subst he; simp [lookupFS] at h

theorem statFS_of_nonlink {fs : FS} {p : Path} {n : Node}
    (h : lookupFS fs p = some n) (hn : ∀ t, n ≠ .symlink t) : statFS fs p = some n := by
  unfold statFS resolveN
  rw [h]
  cases n with
  | file c => rfl
  | dir => rfl
  | symlink t => exact absurd rfl (hn t)

theorem statFS_of_none {fs : FS} {p : Path}
    (h : lookupFS fs p = none) : statFS fs p = none := by
  unfold statFS resolveN
  rw [h]

theorem statFS_symlink {fs : FS} {p t : Path} {n : Node}
    (h : lookupFS fs p = some (.symlink t)) (h2 : lookupFS fs t = some n)
    (hn : ∀ u, n ≠ .symlink u) : statFS fs p = some n := by
  cases fs with
  | nil => simp [lookupFS] at h
  | cons e l =>
    show resolveN (l.length + 1 + 1) _ _ = _
    unfold resolveN
    rw [h]
    unfold resolveN
    rw [h2]
    cases n with
    | file c => rfl
    | dir => rfl
    | symlink u => exact absurd rfl (hn u)

theorem statFS_symlink_dangling {fs : FS} {p t : Path}
    (h : lookupFS fs p = some (.symlink t)) (h2 : lookupFS fs t = none) :
    statFS fs p = none := by
  cases fs with
  | nil => simp [lookupFS] at h
  | cons e l =>
    show resolveN (l.length + 1 + 1) _ _ = none
    unfold resolveN
    rw [h]
    unfold resolveN
    rw [h2]

theorem mem_childrenOf {fs : FS} {dir : Path} {name : String} {nd : Node} :
    (name, nd) ∈ childrenOf fs dir ↔ (dir ++ [name], nd) ∈ fs := by
  unfold childrenOf
  rw [List.mem_filterMap]
  constructor
  · rintro ⟨⟨e1, e2⟩, he, hsome⟩
    by_cases hc : e1.take dir.length = dir ∧ e1.length = dir.length + 1
    · rw [if_pos hc] at hsome
      have hpair := Option.some.inj hsome
      have h1 : (e1.drop dir.length).headD "" = name := congrArg Prod.fst hpair
      have h2 : e2 = nd := congrArg Prod.snd hpair
      have hde : e1 = e1.take dir.length ++ e1.drop dir.length :=
        (List.take_append_drop _ _).symm
      have hlen : (e1.drop dir.length).length = 1 := by
        rw [List.length_drop, hc.2]; omega
      obtain ⟨a, ha⟩ := List.length_eq_one.mp hlen
      have han : a = name := by rw [ha] at h1; simpa using h1
      have he1 : e1 = dir ++ [name] := by rw [hde, hc.1, ha, han]
      rw [← he1, ← h2]
      exact he
    · rw [if_neg hc] at hsome
      cases hsome
  · intro h
    refine ⟨(dir ++ [name], nd), h, ?_⟩
    have hc : (dir ++ [name]).take dir.length = dir ∧
        (dir ++ [name]).length = dir.length + 1 := by
      constructor
      · simp
      · simp
    rw [if_pos hc]
    simp [List.drop_left]

theorem readDir_perm (fs : FS) (dir : Path) :
    (readDir fs dir).Perm (childrenOf fs dir) :=
  List.perm_insertionSort _ _

/-!
## Claim C6: the stream buffer preserves the byte stream
-/

theorem streamWrite_join {α : Type} (bufLen : Nat) (hb : bufLen ≠ 0) (p : List α) :
    (streamWrite bufLen p).flatten = p := by
  generalize hn : p.length = n
  induction n using Nat.strong_induction_on generalizing p with
  | _ n ih =>
    cases p with
    | nil => simp [streamWrite]
    | cons x xs =>
      rw [streamWrite, if_neg hb]
      rw [List.flatten_cons]
      have hlt : ((x :: xs).drop (min bufLen (x :: xs).length)).length < n := by
        rw [List.length_drop]
        have h1 : 1 ≤ min bufLen (x :: xs).length :=
          le_min (Nat.one_le_iff_ne_zero.mpr hb) (by simp)
        simp only [← hn]
        simp only [List.length_cons] at h1 ⊢
        omega
      rw [ih _ hlt _ rfl]
      exact List.take_append_drop _ _

theorem streamWrite_chunk_le {α : Type} (bufLen : Nat) (p : List α) :
    ∀ c ∈ streamWrite bufLen p, c.length ≤ bufLen := by
  generalize hn : p.length = n
  induction n using Nat.strong_induction_on generalizing p with
  | _ n ih =>
    cases p with
    | nil => simp [streamWrite]
    | cons x xs =>
      by_cases hb : bufLen = 0
      · rw [streamWrite, if_pos hb]; simp
      · rw [streamWrite, if_neg hb]
        intro c hc
        rcases List.mem_cons.mp hc with hc | hc
        · subst hc
          rw [List.length_take]
          omega
        · have hlt : ((x :: xs).drop (min bufLen (x :: xs).length)).length < n := by
            rw [List.length_drop]
            have h1 : 1 ≤ min bufLen (x :: xs).length :=
              le_min (Nat.one_le_iff_ne_zero.mpr hb) (by simp)
            simp only [← hn]
            simp only [List.length_cons] at h1 ⊢
            omega
          exact ih _ hlt _ rfl c hc

/-- C6: for every non-empty internal buffer and every input slice,
`streamWriter.Write` forwards exactly the input bytes, in order, to the
underlying writer, in chunks of at most the buffer length, and reports
the full input length on success — so teeing a stream through it is
equivalent to writing the stream directly. -/
theorem C6_streamWriter_preserves_stream {α : Type} (bufLen : Nat) (p : List α)
    (hb : 0 < bufLen) :
    (streamWrite bufLen p).flatten = p ∧
    (∀ c ∈ streamWrite bufLen p, c.length ≤ bufLen) ∧
    streamWriteCount bufLen p = p.length := by
  have hb' : bufLen ≠ 0 := Nat.pos_iff_ne_zero.mp hb
  refine ⟨streamWrite_join bufLen hb' p, streamWrite_chunk_le bufLen p, ?_⟩
  have : ((streamWrite bufLen p).flatten).length = p.length := by
    rw [streamWrite_join bufLen hb' p]
  rw [← this, List.length_flatten]
  rfl

theorem C6_witness :
    0 < 2 ∧
    ((streamWrite 2 ([1, 2, 3] : List Nat)).flatten = [1, 2, 3] ∧
      (∀ c ∈ streamWrite 2 ([1, 2, 3] : List Nat), c.length ≤ 2) ∧
      streamWriteCount 2 ([1, 2, 3] : List Nat) = 3) :=
  ⟨by decide, C6_streamWriter_preserves_stream 2 [1, 2, 3] (by decide)⟩

/-!
## Claim C5: the path codec

The codec is not injective on all identifiers that use the slash only as
the owner/name delimiter: owners that themselves contain dashes make the
double-dash separator ambiguous (`a--b/c` and `a/b--c` encode
identically).  Injectivity does hold once the owner is dash-free.
-/

theorem replaceSlash_append (a b : List Char) :
    replaceSlash (a ++ b) = replaceSlash a ++ replaceSlash b := by
  induction a with
  | nil => simp [replaceSlash]
  | cons c cs ih =>
    by_cases hc : c = '/'
    · simp [replaceSlash, hc, ih]
    · simp [replaceSlash, hc, ih]

theorem replaceSlash_of_no_slash (a : List Char) (h : '/' ∉ a) :
    replaceSlash a = a := by
  induction a with
  | nil => rfl
  | cons c cs ih =>
    have hc : c ≠ '/' := fun hc => h (hc ▸ List.mem_cons_self c cs)
    have hcs : '/' ∉ cs := fun hm => h (List.mem_cons_of_mem c hm)
    simp [replaceSlash, hc, ih hcs]

theorem dashSep_unique (a : List Char) (b : List Char) :
    ∀ (c d : List Char), '-' ∉ a → '-' ∉ c →
      a ++ '-' :: '-' :: b = c ++ '-' :: '-' :: d → a = c ∧ b = d := by
  induction a with
  | nil =>
    intro c d _ hc h
    cases c with
    | nil => simpa using h
    | cons y c2 =>
      have hy : y = '-' := (by simpa using congrArg (fun l => l.headD ' ') h : '-' = y).symm
      exact absurd (hy ▸ List.mem_cons_self y c2) hc
  | cons x a2 ih =>
    intro c d ha hc h
    cases c with
    | nil =>
      have hx : x = '-' := by simpa using congrArg (fun l => l.headD ' ') h
      exact absurd (hx ▸ List.mem_cons_self x a2) ha
    | cons y c2 =>
      have hxy : x = y := by simpa using congrArg (fun l => l.headD ' ') h
      have htail : a2 ++ '-' :: '-' :: b = c2 ++ '-' :: '-' :: d := by
        simpa using congrArg List.tail h
      have ha2 : '-' ∉ a2 := fun hm => ha (List.mem_cons_of_mem x hm)
      have hc2 : '-' ∉ c2 := fun hm => hc (List.mem_cons_of_mem y hm)
      obtain ⟨he, hbd⟩ := ih c2 d ha2 hc2 htail
      exact ⟨by rw [hxy, he], hbd⟩

/-- C5, counterexample: the identifiers `a--b/c` and `a/b--c` are
distinct, each uses the slash only as the owner/name delimiter (neither
part contains a slash), yet they encode to the same directory name, so
the encoding is not injective on that class of identifiers. -/
theorem C5_counterexample :
    ("a--b/c" : String) ≠ "a/b--c" ∧
    ('/' ∉ "a--b".data ∧ '/' ∉ "c".data ∧ '/' ∉ "a".data ∧ '/' ∉ "b--c".data) ∧
    ("a--b/c" : String).data = "a--b".data ++ '/' :: "c".data ∧
    ("a/b--c" : String).data = "a".data ++ '/' :: "b--c".data ∧
    ConvertModelIDToHFPath "a--b/c" = ConvertModelIDToHFPath "a/b--c" := by
  decide

/-- C5, amended: `ConvertModelIDToHFPath` deterministically replaces each
slash with a double dash and prepends the fixed prefix `models--`, and it
is injective for identifiers of the form `owner/name` where neither part
contains a slash and the owner contains no dash: two such identifiers
with the same encoding are equal. -/
theorem C5_encode_injective (o n o2 n2 : List Char)
    (ho : '/' ∉ o) (hn : '/' ∉ n) (ho2 : '/' ∉ o2) (hn2 : '/' ∉ n2)
    (hdo : '-' ∉ o) (hdo2 : '-' ∉ o2)
    (heq : ConvertModelIDToHFPath (String.mk (o ++ '/' :: n)) =
      ConvertModelIDToHFPath (String.mk (o2 ++ '/' :: n2))) :
    String.mk (o ++ '/' :: n) = String.mk (o2 ++ '/' :: n2) := by
  unfold ConvertModelIDToHFPath at heq
  have h1 : replaceSlash (o ++ '/' :: n) = replaceSlash (o2 ++ '/' :: n2) := by
    simpa using congrArg String.data heq
  have hshape : ∀ (a b : List Char), '/' ∉ a → '/' ∉ b →
      replaceSlash (a ++ '/' :: b) = a ++ '-' :: '-' :: b := by
    intro a b hha hhb
    rw [replaceSlash_append, replaceSlash_of_no_slash a hha]
    simp [replaceSlash, replaceSlash_of_no_slash b hhb]
  rw [hshape o n ho hn, hshape o2 n2 ho2 hn2] at h1
  obtain ⟨hoo, hnn⟩ := dashSep_unique o n o2 n2 hdo hdo2 h1
  rw [hoo, hnn]

theorem C5_witness :
    ('/' ∉ "acme".data ∧ '/' ∉ "foo".data ∧ '-' ∉ "acme".data ∧
      ConvertModelIDToHFPath (String.mk ("acme".data ++ '/' :: "foo".data)) =
        ConvertModelIDToHFPath (String.mk ("acme".data ++ '/' :: "foo".data))) ∧
    String.mk ("acme".data ++ '/' :: "foo".data) =
      String.mk ("acme".data ++ '/' :: "foo".data) :=
  ⟨⟨by decide, by decide, by decide, rfl⟩,
    C5_encode_injective "acme".data "foo".data "acme".data "foo".data
      (by decide) (by decide) (by decide) (by decide) (by decide) (by decide) rfl⟩

/-!
## Claim C3: revision resolution with raw-token fallback
-/

/-- C3: `RepoSha` returns the content-set id stored in the ref file
`refs/<token>` when that file exists as a regular file, and returns the
token itself unchanged when resolution fails — when the ref path does not
stat (missing, or a dangling link) or cannot be read as a file (a
directory). -/
theorem C3_RepoSha_resolution (fs : FS) (hub : Path) (modelID version c : String) :
    (lookupFS fs (joinFile (hub ++ [ConvertModelIDToHFPath modelID, "refs"]) version) =
        some (.file c) →
      RepoSha fs hub modelID version = c) ∧
    (statFS fs (joinFile (hub ++ [ConvertModelIDToHFPath modelID, "refs"]) version) = none →
      RepoSha fs hub modelID version = version) ∧
    (lookupFS fs (joinFile (hub ++ [ConvertModelIDToHFPath modelID, "refs"]) version) =
        some .dir →
      RepoSha fs hub modelID version = version) := by
  refine ⟨?_, ?_, ?_⟩
  · intro h
    have hs : statFS fs _ = some (.file c) := statFS_of_nonlink h (by intro t hc; cases hc)
    simp [RepoSha, getRepoSha, readFileFS, hs]
  · intro h
    simp [RepoSha, getRepoSha, h]
  · intro h
    have hs : statFS fs _ = some .dir := statFS_of_nonlink h (by intro t hc; cases hc)
    simp [RepoSha, getRepoSha, readFileFS, hs]

/-- A cache with one resolved ref `refs/main` for `acme/foo`. -/
def refCacheFS : FS :=
  [(["b", "hub", "models--acme--foo"], .dir),
   (["b", "hub", "models--acme--foo", "refs"], .dir),
   (["b", "hub", "models--acme--foo", "refs", "main"], .file "abc123")]

theorem C3_witness :
    RepoSha refCacheFS ["b", "hub"] "acme/foo" "main" = "abc123" ∧
    RepoSha ([] : FS) ["b", "hub"] "acme/foo" "main" = "main" :=
  ⟨(C3_RepoSha_resolution refCacheFS ["b", "hub"] "acme/foo" "main" "abc123").1 (by decide),
    (C3_RepoSha_resolution ([] : FS) ["b", "hub"] "acme/foo" "main" "").2.1 (by decide)⟩

/-!
## Claim C9: etag resolution through the snapshot indirection
-/

/-- C9: `FileEtag` reads the indirection target of the snapshot entry
`snapshots/<sha>/<filename>` and returns the trailing path segment of
that target, and returns the empty string whenever the entry is not a
symbolic-link indirection (missing, or a plain file). -/
theorem C9_FileEtag_trailing_segment (fs : FS) (hub : Path)
    (modelID sha filename : String) (t : Path) (last c : String) :
    (lookupFS fs (snapshotEntryPath hub modelID sha filename) =
        some (.symlink (t ++ [last])) →
      FileEtag fs hub modelID sha filename = last) ∧
    (lookupFS fs (snapshotEntryPath hub modelID sha filename) = none →
      FileEtag fs hub modelID sha filename = "") ∧
    (lookupFS fs (snapshotEntryPath hub modelID sha filename) = some (.file c) →
      FileEtag fs hub modelID sha filename = "") := by
  refine ⟨?_, ?_, ?_⟩
  · intro h
    simp [FileEtag, h, splitLastSegment]
  · intro h
    simp [FileEtag, h]
  · intro h
    simp [FileEtag, h]

/-- A cache with one snapshot entry that is a symbolic-link indirection
and one that is a plain file. -/
def etagCacheFS : FS :=
  [(["b", "hub", "models--acme--foo", "snapshots", "abc", "w.bin"],
      .symlink ["b", "hub", "models--acme--foo", "blobs", "deadbeef"]),
   (["b", "hub", "models--acme--foo", "snapshots", "abc", "a.txt"], .file "xyz")]

theorem C9_witness :
    FileEtag etagCacheFS ["b", "hub"] "acme/foo" "abc" "w.bin" = "deadbeef" ∧
    FileEtag etagCacheFS ["b", "hub"] "acme/foo" "abc" "missing.txt" = "" ∧
    FileEtag etagCacheFS ["b", "hub"] "acme/foo" "abc" "a.txt" = "" :=
  ⟨(C9_FileEtag_trailing_segment etagCacheFS ["b", "hub"] "acme/foo" "abc" "w.bin"
      ["b", "hub", "models--acme--foo", "blobs"] "deadbeef" "").1 (by decide),
    (C9_FileEtag_trailing_segment etagCacheFS ["b", "hub"] "acme/foo" "abc" "missing.txt"
      [] "" "").2.1 (by decide),
    (C9_FileEtag_trailing_segment etagCacheFS ["b", "hub"] "acme/foo" "abc" "a.txt"
      [] "" "xyz").2.2 (by decide)⟩

/-!
## Claim C8: FileExists and the indirection target

`FileExists` uses `os.Stat`, which follows the symbolic-link indirection,
so its result does depend on whether the blob the entry points to exists:
a dangling indirection entry reports false.
-/

/-- A cache whose snapshot entry `snapshots/abc/w.bin` is an indirection
to a blob that does not exist. -/
def danglingFS : FS :=
  [(["b", "hub", "models--acme--foo"], .dir),
   (["b", "hub", "models--acme--foo", "snapshots"], .dir),
   (["b", "hub", "models--acme--foo", "snapshots", "abc"], .dir),
   (["b", "hub", "models--acme--foo", "snapshots", "abc", "w.bin"],
      .symlink ["b", "hub", "models--acme--foo", "blobs", "deadbeef"])]

/-- C8, counterexample: the snapshot entry `snapshots/abc/w.bin` exists
(its lookup succeeds) but its indirection target is missing, and
`FileExists` reports false — so the result is not an existence check of
the entry alone and does depend on the indirection target. -/
theorem C8_counterexample :
    lookupFS danglingFS
        (snapshotEntryPath ["b", "hub"] "acme/foo" "abc" "w.bin") =
      some (.symlink ["b", "hub", "models--acme--foo", "blobs", "deadbeef"]) ∧
    (FileExists danglingFS ["b", "hub"] "acme/foo" "abc" "w.bin").2 = false := by
  decide

/-- C8, amended: `FileExists` stats `snapshots/<sha>/<filename>` and
reports true exactly when that stat succeeds after following the
indirection: a plain-file or directory entry is a pure existence check,
but for a symbolic-link entry the result depends on the target — an
entry whose target exists reports true, a dangling entry reports false,
and a missing entry reports false. -/
theorem C8_FileExists_follows_links (fs : FS) (hub : Path)
    (modelID sha filename : String) (c : String) (t : Path) (n : Node) :
    (lookupFS fs (snapshotEntryPath hub modelID sha filename) = some (.file c) →
      (FileExists fs hub modelID sha filename).2 = true) ∧
    (lookupFS fs (snapshotEntryPath hub modelID sha filename) = some .dir →
      (FileExists fs hub modelID sha filename).2 = true) ∧
    (lookupFS fs (snapshotEntryPath hub modelID sha filename) = some (.symlink t) →
      lookupFS fs t = some n → (∀ u, n ≠ .symlink u) →
      (FileExists fs hub modelID sha filename).2 = true) ∧
    (lookupFS fs (snapshotEntryPath hub modelID sha filename) = some (.symlink t) →
      lookupFS fs t = none →
      (FileExists fs hub modelID sha filename).2 = false) ∧
    (lookupFS fs (snapshotEntryPath hub modelID sha filename) = none →
      (FileExists fs hub modelID sha filename).2 = false) := by
  refine ⟨?_, ?_, ?_, ?_, ?_⟩
  · intro h
    simp [FileExists, statFS_of_nonlink h (by intro u hc; cases hc)]
  · intro h
    simp [FileExists, statFS_of_nonlink h (by intro u hc; cases hc)]
  · intro h h2 hn
    simp [FileExists, statFS_symlink h h2 hn]
  · intro h h2
    simp [FileExists, statFS_symlink_dangling h h2]
  · intro h
    simp [FileExists, statFS_of_none h]

/-- A cache whose snapshot entry resolves to an existing blob. -/
def resolvedFS : FS :=
  [(["b", "hub", "models--acme--foo", "snapshots", "abc", "w.bin"],
      .symlink ["b", "hub", "models--acme--foo", "blobs", "deadbeef"]),
   (["b", "hub", "models--acme--foo", "blobs", "deadbeef"], .file "bytes")]

theorem C8_witness :
    (FileExists resolvedFS ["b", "hub"] "acme/foo" "abc" "w.bin").2 = true ∧
    (FileExists resolvedFS ["b", "hub"] "acme/foo" "abc" "other.bin").2 = false :=
  ⟨(C8_FileExists_follows_links resolvedFS ["b", "hub"] "acme/foo" "abc" "w.bin" ""
      ["b", "hub", "models--acme--foo", "blobs", "deadbeef"] (.file "bytes")).2.2.1
      (by decide) (by decide) (by intro u hc; cases hc),
    (C8_FileExists_follows_links resolvedFS ["b", "hub"] "acme/foo" "abc" "other.bin" ""
      [] .dir).2.2.2.2 (by decide)⟩

/-!
## Claim C1: capture of an index response

`CreateModelIndexFile` removes any prior `.modeindex` and the captured
body is teed into the fresh one, but the ref file `refs/<version>` is
only created with `os.Create` and nothing is ever written into it: the
`x-repo-commit` header is never consulted on this path, so the ref file
is left empty instead of containing the content-set id.
-/

/-- C1, evaluation at the failing input: capturing an index response for
`acme/foo` at revision `main` with upstream header `x-repo-commit:
abc123` does persist the body as `.modeindex`, but leaves `refs/main`
as an empty file rather than making its content `abc123`. -/
theorem C1_refs_left_empty :
    (captureIndexResponse [] ["b"] "acme/foo" "main" "INDEXBODY" "abc123").2 = true ∧
    lookupFS (captureIndexResponse [] ["b"] "acme/foo" "main" "INDEXBODY" "abc123").1
        ["b", "hub", "models--acme--foo", ".modeindex"] = some (.file "INDEXBODY") ∧
    lookupFS (captureIndexResponse [] ["b"] "acme/foo" "main" "INDEXBODY" "abc123").1
        ["b", "hub", "models--acme--foo", "refs", "main"] = some (.file "") ∧
    ("" : String) ≠ "abc123" := by
  decide

/-!
## Claim C4: blob creation and the snapshot indirection entry

On the success path `CreateModelFile` does create the blob file before
the indirection entry, and the entry points at the created blob.  But
the source never checks the error of `os.Create(blobPath)` before calling
`symlinkOrRename`, so when blob creation fails the indirection entry is
still created and does not resolve to a blob file.
-/

theorem lookupFS_mkdirAll_of_some {fs : FS} {q : Path} {n : Node}
    (h : lookupFS fs q = some n) (p : Path) :
    lookupFS (mkdirAll fs p) q = some n := by
  unfold mkdirAll
  generalize pathPrefixes p = l
  induction l generalizing fs with
  | nil => exact h
  | cons r rs ih =>
    simp only [List.foldl_cons]
    by_cases hr : lookupFS fs r = none
    · rw [if_pos hr]
      apply ih
      rw [lookupFS_insertFS]
      have hqr : q ≠ r := by
        intro hq; rw [hq, hr] at h; cases h
      rw [if_neg hqr]
      exact h
    · rw [if_neg hr]
      exact ih h

theorem lookupFS_ensureDir_of_some {fs : FS} {q : Path} {n : Node}
    (h : lookupFS fs q = some n) (p : Path) :
    lookupFS (ensureDir fs p) q = some n := by
  unfold ensureDir
  split_ifs
  · exact lookupFS_mkdirAll_of_some h p
  · exact h

theorem createFile_some {fs : FS} {p : Path} {r : FS × Path}
    (h : createFile fs p = some r) : r.1 = insertFS fs r.2 (.file "") := by
  unfold createFile at h
  rcases hf : finalPath (fs.length + 1) fs p with _ | q
  · simp only [hf] at h
    exact Option.noConfusion h
  · simp only [hf] at h
    by_cases h1 : q = []
    · rw [if_pos h1] at h
      exact Option.noConfusion h
    · rw [if_neg h1] at h
      by_cases h2 : lookupFS fs q = some Node.dir
      · rw [if_pos h2] at h
        exact Option.noConfusion h
      · rw [if_neg h2] at h
        by_cases h3 : lookupFS fs q.dropLast = some Node.dir
        · rw [if_pos h3] at h
          have h4 := Option.some.inj h
          simp [← h4, insertFS]
        · rw [if_neg h3] at h
          exact Option.noConfusion h

theorem append_cons_head_ne (m : Path) (a b : String) (r1 r2 : List String)
    (hab : a ≠ b) : m ++ a :: r1 ≠ m ++ b :: r2 := by
  intro h
  have h2 : a :: r1 = b :: r2 := by
    induction m with
    | nil => exact h
    | cons x xs ih => exact ih (by simpa using h)
  exact hab (List.head_eq_of_cons_eq h2)

theorem joinFile1_shape (m : Path) (s e : String) :
    ∃ rest, joinFile (m ++ [s]) e = m ++ s :: rest := by
  unfold joinFile
  split_ifs
  · exact ⟨[], rfl⟩
  · exact ⟨[e], by simp⟩

theorem joinFile2_shape (m : Path) (s c f : String) :
    ∃ rest, joinFile (joinFile (m ++ [s]) c) f = m ++ s :: rest := by
  unfold joinFile
  split_ifs
  · exact ⟨[], rfl⟩
  · exact ⟨[c], by simp⟩
  · exact ⟨[f], by simp⟩
  · exact ⟨[c, f], by simp⟩

/-- A cache where the blob path `blobs/deadbeef` is (pathologically)
occupied by a directory, so `os.Create` of the blob file fails. -/
def blobBlockedFS : FS :=
  [(["b", "hub", "models--acme--foo"], .dir),
   (["b", "hub", "models--acme--foo", "blobs"], .dir),
   (["b", "hub", "models--acme--foo", "blobs", "deadbeef"], .dir)]

/-- C4, counterexample: with the blob path blocked, blob-file creation
fails (the returned handle is `none`), yet `CreateModelFile` still
creates the snapshot indirection entry `snapshots/abc/config.json`
pointing at `blobs/deadbeef`, where no blob file exists — so the capture
operation can leave behind an indirection entry whose blob file does not
exist when creating the blob file fails. -/
theorem C4_counterexample :
    (CreateModelFile blobBlockedFS ["b"] "acme/foo" "config.json"
        "abc" "\"deadbeef\"" "").2 = none ∧
    lookupFS (CreateModelFile blobBlockedFS ["b"] "acme/foo" "config.json"
        "abc" "\"deadbeef\"" "").1
        ["b", "hub", "models--acme--foo", "snapshots", "abc", "config.json"] =
      some (.symlink ["b", "hub", "models--acme--foo", "blobs", "deadbeef"]) ∧
    readFileFS (CreateModelFile blobBlockedFS ["b"] "acme/foo" "config.json"
        "abc" "\"deadbeef\"" "").1
        ["b", "hub", "models--acme--foo", "blobs", "deadbeef"] = none := by
  decide

/-- C4, amended: `CreateModelFile` opens the blob file at `blobs/<etag>`
before it creates the snapshot indirection entry, and on the success
path (the blob handle was created at the blob path) the final state has
the (empty, still-being-streamed) blob file present and the snapshot
entry `snapshots/<commit>/<filename>` pointing exactly at it; but when
blob creation fails the indirection entry is still created (see the
counterexample), so the no-dangling-entry guarantee only holds when
`os.Create` succeeds. -/
theorem C4_CreateModelFile_success (fs : FS) (base : Path)
    (modelID filename xc xl xe : String)
    (h : (CreateModelFile fs base modelID filename xc xl xe).2 =
      some (joinFile ((base ++ ["hub", ConvertModelIDToHFPath modelID]) ++ ["blobs"])
        (getCommitAndEtag xc xl xe).2)) :
    lookupFS (CreateModelFile fs base modelID filename xc xl xe).1
        (joinFile ((base ++ ["hub", ConvertModelIDToHFPath modelID]) ++ ["blobs"])
          (getCommitAndEtag xc xl xe).2) = some (.file "") ∧
    lookupFS (CreateModelFile fs base modelID filename xc xl xe).1
        (joinFile (joinFile ((base ++ ["hub", ConvertModelIDToHFPath modelID]) ++
          ["snapshots"]) (getCommitAndEtag xc xl xe).1) filename) =
      some (.symlink (joinFile ((base ++ ["hub", ConvertModelIDToHFPath modelID]) ++
        ["blobs"]) (getCommitAndEtag xc xl xe).2)) := by
  simp only [CreateModelFile, proxyPath] at h ⊢
  obtain ⟨r, hcr, hr2⟩ := Option.map_eq_some'.mp h
  rw [hcr]
  simp only [Option.map_some', Option.getD_some, symlinkOrRename]
  have hr1 := createFile_some hcr
  rw [hr2] at hr1
  obtain ⟨r1, hsh1⟩ := joinFile1_shape (base ++ ["hub", ConvertModelIDToHFPath modelID])
    "blobs" (getCommitAndEtag xc xl xe).2
  obtain ⟨r2, hsh2⟩ := joinFile2_shape (base ++ ["hub", ConvertModelIDToHFPath modelID])
    "snapshots" (getCommitAndEtag xc xl xe).1 filename
  have hne : joinFile ((base ++ ["hub", ConvertModelIDToHFPath modelID]) ++ ["blobs"])
      (getCommitAndEtag xc xl xe).2 ≠
      joinFile (joinFile ((base ++ ["hub", ConvertModelIDToHFPath modelID]) ++
        ["snapshots"]) (getCommitAndEtag xc xl xe).1) filename := by
    rw [hsh1, hsh2]
    exact append_cons_head_ne _ "blobs" "snapshots" r1 r2 (by decide)
  constructor
  · rw [lookupFS_insertFS, if_neg hne]
    exact lookupFS_ensureDir_of_some
      (by rw [hr1, lookupFS_insertFS, if_pos rfl]) _
  · rw [lookupFS_insertFS, if_pos rfl]

theorem C4_witness :
    (CreateModelFile ([] : FS) ["b"] "acme/foo" "config.json"
        "abc123" "\"deadbeef\"" "").2 =
      some (joinFile ((["b"] ++ ["hub", ConvertModelIDToHFPath "acme/foo"]) ++ ["blobs"])
        (getCommitAndEtag "abc123" "\"deadbeef\"" "").2) ∧
    (lookupFS (CreateModelFile ([] : FS) ["b"] "acme/foo" "config.json"
        "abc123" "\"deadbeef\"" "").1
        (joinFile ((["b"] ++ ["hub", ConvertModelIDToHFPath "acme/foo"]) ++ ["blobs"])
          (getCommitAndEtag "abc123" "\"deadbeef\"" "").2) = some (.file "") ∧
      lookupFS (CreateModelFile ([] : FS) ["b"] "acme/foo" "config.json"
        "abc123" "\"deadbeef\"" "").1
        (joinFile (joinFile ((["b"] ++ ["hub", ConvertModelIDToHFPath "acme/foo"]) ++
          ["snapshots"]) (getCommitAndEtag "abc123" "\"deadbeef\"" "").1) "config.json") =
        some (.symlink (joinFile ((["b"] ++ ["hub", ConvertModelIDToHFPath "acme/foo"]) ++
          ["blobs"]) (getCommitAndEtag "abc123" "\"deadbeef\"" "").2))) :=
  ⟨by decide,
    C4_CreateModelFile_success ([] : FS) ["b"] "acme/foo" "config.json"
      "abc123" "\"deadbeef\"" "" (by decide)⟩

/-!
## Claim C10: ListFiles sees only top-level non-directory entries
-/

theorem path_eq_append_of_cond {e1 dir : Path}
    (hc : e1.take dir.length = dir ∧ e1.length = dir.length + 1) :
    e1 = dir ++ [(e1.drop dir.length).headD ""] := by
  have hde : e1 = e1.take dir.length ++ e1.drop dir.length :=
    (List.take_append_drop _ _).symm
  have hlen : (e1.drop dir.length).length = 1 := by
    rw [List.length_drop, hc.2]; omega
  obtain ⟨a, ha⟩ := List.length_eq_one.mp hlen
  rw [hde, hc.1, ha]
  simp

theorem childrenOf_keys_nodup (fs : FS) (dir : Path)
    (hnd : (fs.map Prod.fst).Nodup) :
    ((childrenOf fs dir).map Prod.fst).Nodup := by
  induction fs with
  | nil => simp [childrenOf]
  | cons e fs ih =>
    have hh : e.1 ∉ fs.map Prod.fst := (List.nodup_cons.mp hnd).1
    have ht := (List.nodup_cons.mp hnd).2
    unfold childrenOf
    simp only [List.filterMap_cons]
    by_cases hc : e.1.take dir.length = dir ∧ e.1.length = dir.length + 1
    · rw [if_pos hc]
      simp only [List.map_cons]
      rw [List.nodup_cons]
      refine ⟨?_, ih ht⟩
      intro hmem
      obtain ⟨⟨name2, nd2⟩, hmem2, hname2⟩ := List.mem_map.mp hmem
      have hfs : (dir ++ [name2], nd2) ∈ fs := mem_childrenOf.mp hmem2
      have he1 : e.1 = dir ++ [name2] := by
        rw [path_eq_append_of_cond hc, ← hname2]
      exact hh (he1 ▸ List.mem_map.mpr ⟨(dir ++ [name2], nd2), hfs, rfl⟩)
    · rw [if_neg hc]
      exact ih ht

/-- C10: whenever the encoded model directory exists, `ListFiles` returns
exactly the names of the non-directory entries at the top level of that
directory (a persisted `.modeindex` is such an entry and is included),
with no duplicates; a name is listed precisely when a non-directory node
sits directly in the model directory, so nothing stored inside the
`refs`, `blobs` or `snapshots` subdirectories is ever listed. -/
theorem C10_ListFiles_top_level (fs : FS) (hub : Path) (modelID : String)
    (hnd : (fs.map Prod.fst).Nodup)
    (hdir : lookupFS fs (hub ++ [ConvertModelIDToHFPath modelID]) = some .dir) :
    ∃ names, ListFiles fs hub modelID = .ok names ∧
      names.Nodup ∧
      ∀ name, name ∈ names ↔
        ∃ nd, ((hub ++ [ConvertModelIDToHFPath modelID]) ++ [name], nd) ∈ fs ∧
          nd.isDir = false := by
  have hstat : statFS fs (hub ++ [ConvertModelIDToHFPath modelID]) = some .dir :=
    statFS_of_nonlink hdir (by intro t hc; cases hc)
  refine ⟨((readDir fs (hub ++ [ConvertModelIDToHFPath modelID])).filter
      (fun e => !e.2.isDir)).map (fun e => e.1), ?_, ?_, ?_⟩
  · simp [ListFiles, readDirE, hstat, hdir]
  · have hperm : ((readDir fs (hub ++ [ConvertModelIDToHFPath modelID])).map
        Prod.fst).Perm ((childrenOf fs (hub ++ [ConvertModelIDToHFPath modelID])).map
        Prod.fst) :=
      (readDir_perm fs (hub ++ [ConvertModelIDToHFPath modelID])).map Prod.fst
    have hira : ((readDir fs (hub ++ [ConvertModelIDToHFPath modelID])).map
        Prod.fst).Nodup :=
      hperm.nodup_iff.mpr (childrenOf_keys_nodup fs _ hnd)
    have hsub : (((readDir fs (hub ++ [ConvertModelIDToHFPath modelID])).filter
        (fun e => !e.2.isDir)).map (fun e => e.1)).Sublist
        ((readDir fs (hub ++ [ConvertModelIDToHFPath modelID])).map Prod.fst) :=
      (List.filter_sublist _).map Prod.fst
    exact hsub.nodup hira
  · intro name
    constructor
    · intro hmem
      obtain ⟨⟨name2, nd⟩, he, hname⟩ := List.mem_map.mp hmem
      obtain ⟨he2, hdirf⟩ := List.mem_filter.mp he
      have he3 : (name2, nd) ∈ childrenOf fs (hub ++ [ConvertModelIDToHFPath modelID]) := by
        unfold readDir at he2
        exact (List.mem_insertionSort _).mp he2
      have hfs := mem_childrenOf.mp he3
      refine ⟨nd, ?_, ?_⟩
      · rwa [← hname]
      · simpa using hdirf
    · rintro ⟨nd, hmem, hnd2⟩
      have hch : (name, nd) ∈ childrenOf fs (hub ++ [ConvertModelIDToHFPath modelID]) :=
        mem_childrenOf.mpr hmem
      have hrd : (name, nd) ∈ readDir fs (hub ++ [ConvertModelIDToHFPath modelID]) := by
        unfold readDir
        exact (List.mem_insertionSort _).mpr hch
      exact List.mem_map.mpr
        ⟨(name, nd), List.mem_filter.mpr ⟨hrd, by simp [hnd2]⟩, rfl⟩

/-- A populated cache for `acme/foo` with the usual layout plus a
persisted `.modeindex`. -/
def populatedFS : FS :=
  [(["b", "hub", "models--acme--foo"], .dir),
   (["b", "hub", "models--acme--foo", ".modeindex"], .file "IDX"),
   (["b", "hub", "models--acme--foo", "refs"], .dir),
   (["b", "hub", "models--acme--foo", "refs", "main"], .file "abc"),
   (["b", "hub", "models--acme--foo", "blobs"], .dir),
   (["b", "hub", "models--acme--foo", "blobs", "deadbeef"], .file "0123456789"),
   (["b", "hub", "models--acme--foo", "snapshots"], .dir),
   (["b", "hub", "models--acme--foo", "snapshots", "abc"], .dir),
   (["b", "hub", "models--acme--foo", "snapshots", "abc", "w.bin"],
      .symlink ["b", "hub", "models--acme--foo", "blobs", "deadbeef"])]

theorem C10_witness :
    ListFiles populatedFS ["b", "hub"] "acme/foo" = .ok [".modeindex"] ∧
    (∃ names, ListFiles populatedFS ["b", "hub"] "acme/foo" = .ok names ∧
      names.Nodup ∧
      ∀ name, name ∈ names ↔
        ∃ nd, ((["b", "hub"] ++ [ConvertModelIDToHFPath "acme/foo"]) ++ [name], nd) ∈
            populatedFS ∧ nd.isDir = false) :=
  ⟨rfl,
    C10_ListFiles_top_level populatedFS ["b", "hub"] "acme/foo" (by decide) (by decide)⟩

/-!
## Claim C7: GetStorageInfo sums sizes under the raw model directory

`GetStorageInfo` joins the raw (unencoded) model id onto the base
directory for both its existence check and its per-file stats, while the
file names it sums over come from `ListFiles`, which reads the encoded
model directory — so the bytes it returns are not the sizes of the
listed files.
-/

theorem foldl_statSize (fs : FS) (dir : Path) (l : List String) (init : Nat) :
    l.foldl
      (fun acc f =>
        match statFS fs (joinFile dir f) with
        | some nd => acc + nodeSize nd
        | none => acc) init =
    init + (l.map
      (fun f =>
        match statFS fs (joinFile dir f) with
        | some nd => nodeSize nd
        | none => 0)).sum := by
  induction l generalizing init with
  | nil => simp
  | cons x xs ih =>
    simp only [List.foldl_cons, List.map_cons, List.sum_cons]
    rcases hx : statFS fs (joinFile dir x) with _ | nd
    · simp only [hx]
      rw [ih, Nat.zero_add]
    · simp only [hx]
      rw [ih, Nat.add_assoc]

/-- A filesystem where the encoded model directory for `acme/foo` holds a
five-byte file `a`, while the raw directory `acme/foo` exists but holds
no file `a`. -/
def mixedFS : FS :=
  [(["b", "hub", "models--acme--foo"], .dir),
   (["b", "hub", "models--acme--foo", "a"], .file "hello"),
   (["b", "hub", "acme"], .dir),
   (["b", "hub", "acme", "foo"], .dir)]

/-- C7, counterexample: `listFiles` lists the file `a`, whose on-disk
size is 5 bytes, yet `getStorageInfo` returns 0 — it stats `a` under the
raw directory `<base>/acme/foo`, not under the encoded directory the
listed file actually lives in, so the result is not the sum of the
listed files sizes. -/
theorem C7_counterexample :
    GetStorageInfo mixedFS ["b", "hub"] "acme/foo" = .ok 0 ∧
    ListFiles mixedFS ["b", "hub"] "acme/foo" = .ok ["a"] ∧
    statFS mixedFS ((["b", "hub"] ++ [ConvertModelIDToHFPath "acme/foo"]) ++ ["a"]) =
      some (.file "hello") ∧
    nodeSize (.file "hello") = 5 ∧ (0 : Nat) ≠ 5 :=
  ⟨rfl, rfl, rfl, rfl, by decide⟩

/-- C7, amended: `GetStorageInfo` checks the directory obtained by
joining the raw model id onto the base directory and fails not-found
when it is absent; otherwise it returns the sum, over the filenames
returned by `listFiles` (which reads the encoded directory), of the stat
sizes of those names joined onto the raw directory, counting 0 for names
whose stat there fails — which is not in general the on-disk size of the
listed files themselves. -/
theorem C7_GetStorageInfo_raw_dir (fs : FS) (hub : Path) (modelID : String)
    (names : List String) :
    ((statFS fs (goJoinRel hub modelID)).isSome = true →
      ListFiles fs hub modelID = .ok names →
      GetStorageInfo fs hub modelID =
        .ok ((names.map
          (fun f =>
            match statFS fs (joinFile (goJoinRel hub modelID) f) with
            | some nd => nodeSize nd
            | none => 0)).sum)) ∧
    (statFS fs (goJoinRel hub modelID) = none →
      GetStorageInfo fs hub modelID = .error ("model not found: " ++ modelID)) := by
  constructor
  · intro hraw hlist
    have hnn : (statFS fs (goJoinRel hub modelID)).isNone = false := by
      rcases hs : statFS fs (goJoinRel hub modelID) with _ | nd
      · rw [hs] at hraw; cases hraw
      · rfl
    simp only [GetStorageInfo, hnn, Bool.false_eq_true, if_false, hlist]
    rw [foldl_statSize]
    simp
  · intro h
    simp [GetStorageInfo, h]

theorem C7_witness :
    (GetStorageInfo mixedFS ["b", "hub"] "acme/foo" =
      .ok (((["a"] : List String).map
        (fun f =>
          match statFS mixedFS (joinFile (goJoinRel ["b", "hub"] "acme/foo") f) with
          | some nd => nodeSize nd
          | none => 0)).sum)) ∧
    GetStorageInfo ([] : FS) ["b", "hub"] "acme/foo" =
      .error ("model not found: " ++ "acme/foo") :=
  ⟨(C7_GetStorageInfo_raw_dir mixedFS ["b", "hub"] "acme/foo" ["a"]).1 (by decide) rfl,
    (C7_GetStorageInfo_raw_dir ([] : FS) ["b", "hub"] "acme/foo" []).2 (by decide)⟩

/-!
## Claim C2: synthesis of the model index from the snapshot directory
-/

/-- The size one snapshot entry contributes to the synthesized
`usedStorage`: its own content length for a plain file, and the length of
the blob it points to (never the indirection entry itself) for a
symbolic-link indirection. -/
def entrySize (fs : FS) (hub : Path) (modePath : String) (e : String × Node) : Nat :=
  match e.2 with
  | .file c => c.length
  | .dir => 0
  | .symlink t =>
    match lookupFS fs (joinFile (hub ++ [modePath, "blobs"]) (splitLastSegment t)) with
    | some (.file b) => b.length
    | _ => 0

/-- Well-formedness of one snapshot child: not a directory, and if an
indirection then the blob named by the trailing target segment exists as
a regular file. -/
def entryOKb (fs : FS) (hub : Path) (modePath : String) (nd : Node) : Bool :=
  match nd with
  | .file _ => true
  | .dir => false
  | .symlink t =>
    match lookupFS fs (joinFile (hub ++ [modePath, "blobs"]) (splitLastSegment t)) with
    | some (.file _) => true
    | _ => false

theorem fold_visit (fs : FS) (hub : Path) (modePath : String) (sd : Path)
    (f : (List String × Nat) → (String × Node) → Except String (List String × Nat))
    (l : List (String × Node)) (acc : List String × Nat)
    (hf : ∀ a e, e ∈ l → f a e = visitEntry fs hub modePath sd e.1 e.2 a)
    (hl : ∀ e ∈ l, lookupFS fs (sd ++ [e.1]) = some e.2 ∧
      entryOKb fs hub modePath e.2 = true) :
    l.foldlM f acc =
      .ok (acc.1 ++ l.map Prod.fst,
        acc.2 + (l.map (entrySize fs hub modePath)).sum) := by
  induction l generalizing acc with
  | nil =>
    obtain ⟨a1, a2⟩ := acc
    simp [pure, Except.pure]
  | cons e es ih =>
    obtain ⟨a1, a2⟩ := acc
    obtain ⟨name, nd⟩ := e
    obtain ⟨hlk, hok⟩ := hl (name, nd) (List.mem_cons_self _ _)
    have hfe := hf (a1, a2) (name, nd) (List.mem_cons_self _ _)
    have hf2 : ∀ a e2, e2 ∈ es → f a e2 = visitEntry fs hub modePath sd e2.1 e2.2 a :=
      fun a e2 he2 => hf a e2 (List.mem_cons_of_mem _ he2)
    have hl2 : ∀ e2 ∈ es, lookupFS fs (sd ++ [e2.1]) = some e2.2 ∧
        entryOKb fs hub modePath e2.2 = true :=
      fun e2 he2 => hl e2 (List.mem_cons_of_mem _ he2)
    rw [List.foldlM_cons, hfe]
    cases nd with
    | dir => simp [entryOKb] at hok
    | file c =>
      have hv : visitEntry fs hub modePath sd name (.file c) (a1, a2) =
          .ok (a1 ++ [name], a2 + c.length) := by
        simp [visitEntry, nodeSize]
      rw [hv]
      show List.foldlM f _ es = _
      rw [ih _ hf2 hl2]
      simp [entrySize, List.append_assoc, Nat.add_assoc]
    | symlink t =>
      rcases hb : lookupFS fs (joinFile (hub ++ [modePath, "blobs"]) (splitLastSegment t))
        with _ | nd2
      · simp [entryOKb, hb] at hok
      · cases nd2 with
        | file b =>
          have hstat : statFS fs
              (joinFile (hub ++ [modePath, "blobs"]) (splitLastSegment t)) =
              some (.file b) := statFS_of_nonlink hb (by intro u hc; cases hc)
          have hv : visitEntry fs hub modePath sd name (.symlink t) (a1, a2) =
              .ok (a1 ++ [name], a2 + b.length) := by
            simp [visitEntry, hlk, hstat, nodeSize]
          rw [hv]
          show List.foldlM f _ es = _
          rw [ih _ hf2 hl2]
          simp [entrySize, hb, List.append_assoc, Nat.add_assoc]
        | dir => simp [entryOKb, hb] at hok
        | symlink u => simp [entryOKb, hb] at hok

/-- C2: for every model directory with no `.modeindex`, with the ref file
resolving the revision to `sha` and a flat snapshot directory
`snapshots/<sha>` whose entries are plain files or indirections to
existing blobs, `RepoInfo` (for any parser, which is not consulted)
synthesizes a document whose siblings are exactly the entry names of the
snapshot directory and whose `usedStorage` is the sum of each plain
file's own size and each indirection's blob size (never the indirection
entry's own size). -/
theorem C2_RepoInfo_synthesis (parse : String → Option ModelDoc) (fs : FS)
    (hub : Path) (modelID version sha : String) (sd : Path)
    (hsdeq : sd = joinFile (hub ++ [ConvertModelIDToHFPath modelID, "snapshots"]) sha)
    (hnd : (fs.map Prod.fst).Nodup)
    (hnoidx : statFS fs (hub ++ [ConvertModelIDToHFPath modelID, ".modeindex"]) = none)
    (href : lookupFS fs
      (joinFile (hub ++ [ConvertModelIDToHFPath modelID, "refs"]) version) =
      some (.file sha))
    (hsd : lookupFS fs sd = some .dir)
    (hkids : ∀ e ∈ fs, e.1.take sd.length = sd → e.1.length = sd.length + 1 →
      entryOKb fs hub (ConvertModelIDToHFPath modelID) e.2 = true) :
    ∃ names,
      RepoInfo parse fs hub modelID version =
        .ok ⟨modelID, modelID, (splitSlash modelID).headD "", sha,
          ((childrenOf fs sd).map
            (entrySize fs hub (ConvertModelIDToHFPath modelID))).sum, names⟩ ∧
      names.Perm ((childrenOf fs sd).map Prod.fst) := by
  have hrsha : getRepoSha fs hub modelID version = .ok sha := by
    have hs := statFS_of_nonlink href (by intro t hc; cases hc)
    simp [getRepoSha, readFileFS, hs]
  have hl : ∀ e ∈ readDir fs sd, lookupFS fs (sd ++ [e.1]) = some e.2 ∧
      entryOKb fs hub (ConvertModelIDToHFPath modelID) e.2 = true := by
    intro e he
    obtain ⟨name, nd⟩ := e
    have hch : (name, nd) ∈ childrenOf fs sd := by
      unfold readDir at he
      exact (List.mem_insertionSort _).mp he
    have hfs := mem_childrenOf.mp hch
    refine ⟨lookupFS_eq_of_mem_nodup hnd hfs, ?_⟩
    exact hkids (sd ++ [name], nd) hfs (by simp) (by simp)
  have hwalk : walkRec (fs.length + 1) fs hub (ConvertModelIDToHFPath modelID) sd sd
      ([], 0) =
      .ok ((readDir fs sd).map Prod.fst,
        ((readDir fs sd).map
          (entrySize fs hub (ConvertModelIDToHFPath modelID))).sum) := by
    rw [walkRec]
    rw [fold_visit fs hub (ConvertModelIDToHFPath modelID) sd _ _ _ ?_ hl]
    · simp
    · intro a e he
      obtain ⟨name, nd⟩ := e
      cases nd with
      | file c => rfl
      | dir =>
        have := (hl (name, .dir) he).2
        simp [entryOKb] at this
      | symlink t => rfl
  have hsum : ((readDir fs sd).map
      (entrySize fs hub (ConvertModelIDToHFPath modelID))).sum =
      ((childrenOf fs sd).map
        (entrySize fs hub (ConvertModelIDToHFPath modelID))).sum :=
    ((readDir_perm fs sd).map _).sum_eq
  refine ⟨(readDir fs sd).map Prod.fst, ?_, (readDir_perm fs sd).map Prod.fst⟩
  simp only [RepoInfo, hnoidx, buildModelIndex, hrsha, ← hsdeq, hsd, hwalk, hsum]

/-- A cache for `acme/foo` with no `.modeindex`, a ref `main -> abc`, and
a snapshot `abc` holding a 3-byte plain file and an indirection to a
10-byte blob. -/
def snapshotFS : FS :=
  [(["b", "hub", "models--acme--foo"], .dir),
   (["b", "hub", "models--acme--foo", "refs"], .dir),
   (["b", "hub", "models--acme--foo", "refs", "main"], .file "abc"),
   (["b", "hub", "models--acme--foo", "blobs"], .dir),
   (["b", "hub", "models--acme--foo", "blobs", "deadbeef"], .file "0123456789"),
   (["b", "hub", "models--acme--foo", "snapshots"], .dir),
   (["b", "hub", "models--acme--foo", "snapshots", "abc"], .dir),
   (["b", "hub", "models--acme--foo", "snapshots", "abc", "a.txt"], .file "xyz"),
   (["b", "hub", "models--acme--foo", "snapshots", "abc", "w.bin"],
      .symlink ["b", "hub", "models--acme--foo", "blobs", "deadbeef"])]

theorem C2_witness :
    ∃ names,
      RepoInfo (fun _ => none) snapshotFS ["b", "hub"] "acme/foo" "main" =
        .ok ⟨"acme/foo", "acme/foo", (splitSlash "acme/foo").headD "", "abc",
          ((childrenOf snapshotFS
            (joinFile (["b", "hub"] ++ [ConvertModelIDToHFPath "acme/foo", "snapshots"])
              "abc")).map
            (entrySize snapshotFS ["b", "hub"] (ConvertModelIDToHFPath "acme/foo"))).sum,
          names⟩ ∧
      names.Perm ((childrenOf snapshotFS
        (joinFile (["b", "hub"] ++ [ConvertModelIDToHFPath "acme/foo", "snapshots"])
          "abc")).map Prod.fst) :=
  C2_RepoInfo_synthesis (fun _ => none) snapshotFS ["b", "hub"] "acme/foo" "main" "abc"
    (joinFile (["b", "hub"] ++ [ConvertModelIDToHFPath "acme/foo", "snapshots"]) "abc")
    rfl (by decide) (by decide) (by decide) (by decide) (by decide)

end LLMDistribution
